import Mathlib

/-!
Verification of the reusable simple concat dispatch planner
(src/gpu/intel/reusable_simple_concat.cpp).

The planner's inputs are modelled as plain data: each tensor layout is the
3-axis normalized view `{outer, concat, inner}` described in the spec
(`normalization_t`, declared in `gpu/intel/concat_utils.hpp`, is not part of
the sources at hand; per the spec it folds all axes before the concat axis
into `outer` and all axes after into `inner` while preserving the concat
axis and its inner-block decomposition, so the planner is modelled as
receiving layouts already in that view).  All machine integers (`dim_t`,
`int`) are modelled as `Nat`; every division and modulus is C++ truncating
division on the corresponding nonnegative values.
-/

/-- The three canonical axes of the normalized view. -/
inductive Ax where
  | outer
  | concat
  | inner
deriving DecidableEq, Repr

/-- Modelled from the spec: the 3-axis normalized projection of a
`memory_desc_t` (rank-folded by `normalization_t`, which is not under the
given sources), together with the fields of the original descriptor the
planner reads: per-axis logical/padded sizes and strides, the ordered
inner-block list (outermost first, innermost last, exactly as
`blocking_desc_t::inner_blks`/`inner_idxs`), the base element offset, the
byte size reported by `memory_desc_wrapper::size()`, and whether the
format kind is `blocked`. -/
structure MemDesc where
  dimsOuter : Nat
  dimsConcat : Nat
  dimsInner : Nat
  pdimsOuter : Nat
  pdimsConcat : Nat
  pdimsInner : Nat
  stridesOuter : Nat
  stridesConcat : Nat
  offset0 : Nat
  innerBlocks : List (Nat × Ax)
  sizeBytes : Nat
  formatBlocked : Bool
deriving DecidableEq, Repr

/-- Device capabilities read by the planner (`device_info`). -/
structure Device where
  maxSgSize : Nat
  mayiuse : Nat → Bool
  registerBytes : Nat
  hwThreads : Nat

/-- One planning request: destination view, source views (in input order),
device handle, and the normalization-derived scalars.  `maxWriteSize`,
`maxReadSize` and `dataTypeSize` are the values of
`normalization_t::max_write_size() / max_read_size() / data_type_size()`
(modelled from the spec as opaque inputs, since `concat_utils.hpp` is not
under the given sources).  `probeBlock` models the read-block length chosen
by the `prb_info_t` constructor from `(simd, type_size, max_elems)`
(also declared in `concat_utils.hpp`); `optimalLws` models the external
`compute::get_optimal_lws` oracle. -/
structure Input where
  dst : MemDesc
  srcs : List MemDesc
  dev : Device
  maxWriteSize : Nat
  maxReadSize : Nat
  dataTypeSize : Nat
  probeBlock : Nat → Nat → Nat → Nat
  optimalLws : Nat × Nat × Nat → Nat × Nat × Nat

/-- `utils::div_up`. -/
def divUp (a b : Nat) : Nat := (a + b - 1) / b

/-- `utils::rnd_up`. -/
def rndUp (a b : Nat) : Nat := divUp a b * b

/-- The live (non-empty) inputs: sources whose padded concat-axis extent is
nonzero, in input order. -/
def liveSrcs (srcs : List MemDesc) : List MemDesc :=
  srcs.filter fun s => decide (s.pdimsConcat ≠ 0)

/-- Sum of the logical concat extents of the first `k` elements. -/
def prefixDims (l : List MemDesc) (k : Nat) : Nat :=
  ((l.take k).map fun s => s.dimsConcat).sum

/-- Sum of the padded concat extents of the first `k` elements. -/
def prefixPdims (l : List MemDesc) (k : Nat) : Nat :=
  ((l.take k).map fun s => s.pdimsConcat).sum

/-- Modelled from the spec: `normalization_t::add_source` accepts a layout
iff it is block-structured (a non-`blocked` format kind is rejected). -/
def addSourceOk (s : MemDesc) : Bool := s.formatBlocked

/-- Modelled from the spec: `normalization_t::has_internal_padding()` is
true when some block covering the concat axis — a member of the inner-block
list, hence not the outermost level of the axis — has a length that does
not divide the logical concat extent. -/
def hasInternalPadding (dst : MemDesc) : Bool :=
  dst.innerBlocks.any fun b => b.2 == Ax.concat && decide (dst.dimsConcat % b.1 ≠ 0)

/-- A `(lane width, byte-group size)` probe: `maxElems` is the
concurrency-aligned block length computed by the search loop, `block` the
read-block length produced by the `prb_info_t` constructor. -/
structure ProbeInfo where
  simd : Nat
  typeSize : Nat
  maxElems : Nat
  block : Nat
deriving DecidableEq, Repr

/-- The static plan parameters (`reusable_simple_concat_params_t`).
`blocks` holds the `(blocks[i], strides[i])` pairs for `i < n_blocks`. -/
structure ConcatConf where
  n : Nat
  simd : Nat
  dataTypeSize : Nat
  readBlock : Nat
  writeBlock : Nat
  blocks : List (Nat × Nat)
  useLargeIndex : Bool
  useInternalPaddingKernel : Bool
  bytesPerWorkitem : Nat
deriving DecidableEq, Repr

/-- The runtime plan parameters (`reusable_simple_concat_runtime_params_t`).
The per-input arrays are indexed by position among non-empty inputs. -/
structure ConcatRt where
  srcExternDimSizes : List Nat
  offsets : List Nat
  paddedOffsets : List Nat
  dstExternDimSize : Nat
  dstPaddedConcatAxis : Nat
  dstConcatAxis : Nat
  dstOffset0 : Nat
  innerAxis : Nat
  gws0Block : Nat
  readOverlap : Nat
  gws : Nat × Nat × Nat
  lws : Nat × Nat × Nat
  srcConcatAxis0 : Nat
  srcConcatAxis1 : Nat
  paddedSrcConcatAxis0 : Nat
  paddedSrcConcatAxis1 : Nat
deriving DecidableEq, Repr

/-- A produced plan: `conf` + `rt_conf`. -/
structure Plan where
  conf : ConcatConf
  rt : ConcatRt
deriving DecidableEq, Repr

/-- State of the per-source accumulation loop shared by both strategies:
running logical/padded offsets, live-input count, the last live input's
padding remainder, the running byte-size maximum, and the dense per-live
arrays recorded in `rt_conf`. -/
structure ScanSt where
  offset : Nat
  paddedOffset : Nat
  nonempty : Nat
  finalPadding : Nat
  maxBytes : Nat
  offsets : List Nat
  paddedOffsets : List Nat
  externSizes : List Nat
deriving DecidableEq, Repr

/-- One iteration of the source loop for a non-empty source. -/
def scanStep (dts : Nat) (st : ScanSt) (s : MemDesc) : ScanSt :=
  { offset := st.offset + s.dimsConcat
    paddedOffset := st.paddedOffset + s.pdimsConcat
    nonempty := st.nonempty + 1
    finalPadding := s.pdimsConcat - s.dimsConcat
    maxBytes := max st.maxBytes s.sizeBytes
    offsets := st.offsets ++ [st.offset]
    paddedOffsets := st.paddedOffsets ++ [st.paddedOffset]
    externSizes := st.externSizes ++ [s.stridesOuter * dts] }

/-- Initial loop state (`max_bytes` starts at the destination byte size). -/
def scanInit (dstBytes : Nat) : ScanSt :=
  { offset := 0, paddedOffset := 0, nonempty := 0, finalPadding := 0
    maxBytes := dstBytes, offsets := [], paddedOffsets := [], externSizes := [] }

/-- The source loop of `normalize_reusable_simple_concat` (lines 80–97):
sources whose padded concat extent is zero are skipped. -/
def srcScan (dts dstBytes : Nat) (srcs : List MemDesc) : ScanSt :=
  srcs.foldl (fun st s => if s.pdimsConcat = 0 then st else scanStep dts st s)
    (scanInit dstBytes)

/-- The destination block-decomposition loop (lines 108–121 and 217–228):
walk the inner-block list innermost to outermost; when `first` is set the
innermost block length is rescaled from `dts`-byte elements to
`ts`-byte elements; blocks on the concat axis contribute
`(length, stride)`. -/
def blocksWalk (dts ts : Nat) : List (Nat × Ax) → Bool → Nat → List (Nat × Nat)
  | [], _, _ => []
  | (blk, ax) :: rest, first, stride =>
    let b := if first then blk * dts / ts else blk
    (if ax = Ax.concat then [(b, stride)] else []) ++ blocksWalk dts ts rest false (stride * b)

/-- Lane widths probed, in the enumeration order of the source. -/
def simdList : List Nat := [32, 16, 8, 1]

/-- Byte-group sizes probed, in the enumeration order of the source. -/
def bytesList : List Nat := [8, 4, 2, 1]

/-- The probe built for one `(simd, bytes)` pair (lines 62–70). -/
def mkProbe (inp : Input) (simd bytes : Nat) : ProbeInfo :=
  let totalElems := inp.dst.sizeBytes / bytes
  let concurrentElems := divUp (simd * totalElems) inp.dev.hwThreads
  let elemsPerReg := inp.dev.registerBytes / bytes
  let maxElems := rndUp concurrentElems elemsPerReg
  { simd := simd, typeSize := bytes, maxElems := maxElems
    block := inp.probeBlock simd bytes maxElems }

/-- Lane-width eligibility in the candidate loop (lines 57–58). -/
def simdOk (inp : Input) (simd : Nat) : Bool :=
  decide (simd ≤ inp.dev.maxSgSize) && (decide (simd ≤ 1) || inp.dev.mayiuse simd)

/-- Byte-group admission inside the loop (lines 61 and 68); `has_scales` is
the constant `false` in the source, so its `break` never fires. -/
def bytesOk (inp : Input) (simd bytes : Nat) : Bool :=
  (inp.maxWriteSize % bytes == 0) && decide (simd ≤ (mkProbe inp simd bytes).maxElems)

/-- Full admission condition for a `(simd, bytes)` pair. -/
def candOk (inp : Input) (simd bytes : Nat) : Bool :=
  simdOk inp simd && bytesOk inp simd bytes

/-- The candidate list built by the double loop (lines 55–72), in
enumeration order. -/
def candidates (inp : Input) : List ProbeInfo :=
  simdList.foldr (fun simd acc =>
    (if simdOk inp simd then
      bytesList.filterMap fun bytes =>
        if bytesOk inp simd bytes then some (mkProbe inp simd bytes) else none
     else []) ++ acc) []

/-- Modelled from the spec: the ranking of `prb_info_t::operator<`
(declared in `concat_utils.hpp`, not under the given sources): a candidate
ranks strictly before another iff it has a larger aligned block, or an
equal aligned block and a larger lane width, or equal both and a smaller
byte size. -/
def probeBetter (a b : ProbeInfo) : Bool :=
  decide (b.maxElems < a.maxElems) ||
    (a.maxElems == b.maxElems &&
      (decide (b.simd < a.simd) ||
        (a.simd == b.simd && decide (a.typeSize < b.typeSize))))

/-- `std::sort` followed by taking `infos[0]`: the minimum of the candidate
list under the ranking. -/
def selectBest (first : ProbeInfo) (rest : List ProbeInfo) : ProbeInfo :=
  rest.foldl (fun best x => if probeBetter x best then x else best) first

/-- The candidate the general strategy ends up using, when any exists. -/
def selectedInfo (inp : Input) : Option ProbeInfo :=
  match candidates inp with
  | [] => none
  | first :: rest => some (selectBest first rest)

/-- The plan assembled by `normalize_reusable_simple_concat` for a chosen
probe (lines 77–153, excluding the two failure returns). -/
def generalPlan (inp : Input) (info : ProbeInfo) : Plan :=
  let dts := inp.dataTypeSize
  let ts := info.typeSize
  let st := srcScan dts inp.dst.sizeBytes inp.srcs
  let dstConcatAxis := min inp.dst.pdimsConcat (st.offset + st.finalPadding)
  let blocks := blocksWalk dts ts inp.dst.innerBlocks.reverse true 1
  let externAxis := inp.dst.dimsOuter
  let innerAxisExt := inp.dst.pdimsInner * dts / ts
  let innerOffset := inp.dst.stridesConcat * dts / ts
  let readBlock := info.block
  let writeBlock := min info.block (inp.maxWriteSize / ts)
  let sharedRead := Nat.gcd innerAxisExt readBlock
  let gws0Block := innerAxisExt * readBlock / sharedRead
  let readOverlap := gws0Block / innerAxisExt
  let gws := (gws0Block * info.simd / readBlock, externAxis / readOverlap, st.paddedOffset)
  { conf :=
      { n := st.nonempty, simd := info.simd, dataTypeSize := ts
        readBlock := readBlock, writeBlock := writeBlock, blocks := blocks
        useLargeIndex := decide (st.maxBytes > 2147483647)
        useInternalPaddingKernel := false, bytesPerWorkitem := 0 }
    rt :=
      { srcExternDimSizes := st.externSizes, offsets := st.offsets
        paddedOffsets := st.paddedOffsets
        dstExternDimSize := inp.dst.stridesOuter * dts
        dstPaddedConcatAxis := inp.dst.pdimsConcat
        dstConcatAxis := dstConcatAxis
        dstOffset0 := inp.dst.offset0 * dts / ts
        innerAxis := innerOffset
        gws0Block := gws0Block, readOverlap := readOverlap, gws := gws
        lws := inp.optimalLws gws
        srcConcatAxis0 := 0, srcConcatAxis1 := 0
        paddedSrcConcatAxis0 := 0, paddedSrcConcatAxis1 := 0 } }

/-- `normalize_reusable_simple_concat` (lines 30–155): fail when the
candidate list is empty or the first enumerated candidate has a zero read
block; otherwise build the plan from the best-ranked candidate, rejecting
it when the write granularity is one byte and the destination's padded
concat extent is at least four times its logical extent. -/
def generalStrategy (inp : Input) : Except Unit Plan :=
  match candidates inp with
  | [] => .error ()
  | first :: rest =>
    if first.block = 0 then .error ()
    else
      let p := generalPlan inp (selectBest first rest)
      if p.conf.writeBlock * p.conf.dataTypeSize = 1 ∧
          4 * inp.dst.dimsConcat ≤ inp.dst.pdimsConcat then .error ()
      else .ok p

/-- The concat-axis block pairs computed by the internal-padding strategy
(no element-size rescale: the chosen element size is the data type size). -/
def ipBlocks (inp : Input) : List (Nat × Nat) :=
  blocksWalk inp.dataTypeSize inp.dataTypeSize inp.dst.innerBlocks.reverse false 1

/-- The destination's first concat-axis block length (`conf.blocks[0]`);
the params struct is zero-initialized, so an empty decomposition reads 0. -/
def ipBlock0 (inp : Input) : Nat := ((ipBlocks inp).headD (0, 0)).1

/-- `bytes_per_workitem` as assigned inside the lane-width loop
(line 239–240). -/
def ipBpw (inp : Input) : Nat := if inp.dataTypeSize = 8 then 8 else 16

/-- Lane-width eligibility in the internal-padding loop (lines 234–237). -/
def ipSupported (inp : Input) (simd : Nat) : Bool :=
  decide (simd ≤ inp.dev.maxSgSize) && (decide (simd ≤ 1) || inp.dev.mayiuse simd)
    && decide (simd ≤ inp.dst.sizeBytes / inp.dataTypeSize)

/-- The three qualification conditions of the internal-padding lane-width
search (lines 241–251): the per-lane element span is a multiple of the
first concat block length, the span is at least that length, and the lane
width itself is at least that length. -/
def ipQualify (inp : Input) (simd : Nat) : Bool :=
  let elemsPerSimd := simd * (ipBpw inp / inp.dataTypeSize)
  (elemsPerSimd % ipBlock0 inp == 0) && decide (elemsPerSimd ≥ ipBlock0 inp)
    && decide (simd ≥ ipBlock0 inp)

/-- `max_simd` after the loop: the first (largest) eligible and qualifying
lane width, or 1 when none qualifies. -/
def ipMaxSimd (inp : Input) : Nat :=
  (simdList.find? fun simd => ipSupported inp simd && ipQualify inp simd).getD 1

/-- The plan assembled by `try_normalize_ip_concat2` on its success path
(lines 258–315). -/
def ipPlan (inp : Input) (maxSimd : Nat) : Plan :=
  let dts := inp.dataTypeSize
  let st := srcScan dts inp.dst.sizeBytes inp.srcs
  let liveDims := (liveSrcs inp.srcs).map fun s => s.dimsConcat
  let livePdims := (liveSrcs inp.srcs).map fun s => s.pdimsConcat
  let loadsPerThread := ipBpw inp / dts
  let gws := (divUp (inp.dst.pdimsConcat * inp.dst.dimsInner) (maxSimd * loadsPerThread) * maxSimd,
              inp.dst.dimsOuter, 1)
  { conf :=
      { n := st.nonempty, simd := maxSimd, dataTypeSize := dts
        readBlock := 1, writeBlock := 1, blocks := ipBlocks inp
        useLargeIndex := decide (inp.dst.sizeBytes > 2147483647)
        useInternalPaddingKernel := true, bytesPerWorkitem := ipBpw inp }
    rt :=
      { srcExternDimSizes := [], offsets := st.offsets
        paddedOffsets := st.paddedOffsets
        dstExternDimSize := inp.dst.stridesOuter * dts
        dstPaddedConcatAxis := inp.dst.pdimsConcat
        dstConcatAxis := min inp.dst.pdimsConcat (st.offset + st.finalPadding)
        dstOffset0 := 0
        innerAxis := inp.dst.dimsInner
        gws0Block := 0, readOverlap := 0, gws := gws
        lws := inp.optimalLws gws
        srcConcatAxis0 := liveDims.getD 0 0, srcConcatAxis1 := liveDims.getD 1 0
        paddedSrcConcatAxis0 := livePdims.getD 0 0
        paddedSrcConcatAxis1 := livePdims.getD 1 0 } }

/-- `try_normalize_ip_concat2` (lines 157–319).  The eligibility heuristics
(lines 274–297): exactly two live inputs, subgroup-alignable data, a
sufficiently large inner row and problem size, and a supported first block
length. -/
def ipStrategy (inp : Input) : Except Unit Plan :=
  let dts := inp.dataTypeSize
  let maxSimd := ipMaxSimd inp
  if maxSimd = 1 then .error ()
  else
    let st := srcScan dts inp.dst.sizeBytes inp.srcs
    let b0 := ipBlock0 inp
    let loadsPerThread := ipBpw inp / dts
    let minBlockReadElements := maxSimd * loadsPerThread
    let rowInnerElems := b0 * inp.dst.dimsInner
    let canSubgroupReadDt :=
      if dts < 4 then (ipBlocks inp ≠ [] ∧ dts * b0 ≥ 4) else True
    let supportedBlockSize :=
      ipBlocks inp ≠ [] ∧ (b0 = 4 ∨ b0 = 8 ∨ b0 = 16 ∨ b0 = 32)
    if st.nonempty = 2 ∧ canSubgroupReadDt ∧ rowInnerElems > minBlockReadElements ∧
        supportedBlockSize ∧ inp.dst.sizeBytes > 500000 then
      .ok (ipPlan inp maxSimd)
    else .error ()

/-- The up-front layout checks of `init_conf_common` (lines 327–336). -/
def formatChecksPass (inp : Input) : Bool :=
  inp.dst.formatBlocked && inp.srcs.all addSourceOk

/-- Whether `init_conf_common` calls `try_normalize_ip_concat2`
(lines 338–342): after the format checks, exactly when the destination
reports internal padding. -/
def ipAttempted (inp : Input) : Bool :=
  formatChecksPass inp && hasInternalPadding inp.dst

/-- `init_conf_common` (lines 321–346). -/
def initConfCommon (inp : Input) : Except Unit Plan :=
  if formatChecksPass inp then
    if hasInternalPadding inp.dst then
      match ipStrategy inp with
      | .ok p => .ok p
      | .error _ => generalStrategy inp
    else generalStrategy inp
  else .error ()

/-- An entry of the flat kernel argument list: the destination buffer, a
source buffer (identified by its original input index), an integer value,
or the trailing byte flag. -/
inductive KArg where
  | dstBuf : KArg
  | buf : Nat → KArg
  | val : Nat → KArg
  | flag : Bool → KArg
deriving DecidableEq, Repr

/-- List enumeration with explicit start index, `(index, element)` pairs. -/
def enumFromN (n : Nat) : List α → List (Nat × α)
  | [] => []
  | a :: l => (n, a) :: enumFromN (n + 1) l

/-- Concatenated map over a list. -/
def catMap (f : α → List β) : List α → List β
  | [] => []
  | a :: l => f a ++ catMap f l

/-- The five arguments appended for one live input by
`push_idx_kernel_args` (lines 384–395): source buffer, scaled outer
stride, logical offset, padded offset, and the concat-axis boundary (the
next live input's logical offset, or `dst_concat_axis` for the last). -/
def pushChunk (conf : ConcatConf) (rt : ConcatRt) (idx valid : Nat) : List KArg :=
  [KArg.buf idx,
   KArg.val (rt.srcExternDimSizes.getD valid 0 / conf.dataTypeSize),
   KArg.val (rt.offsets.getD valid 0),
   KArg.val (rt.paddedOffsets.getD valid 0),
   KArg.val (if valid + 1 < conf.n then rt.offsets.getD (valid + 1) 0 else rt.dstConcatAxis)]

/-- The per-input loop of `push_idx_kernel_args` over `(original index,
source)` pairs, carrying the dense live counter `valid_idx`. -/
def pushLoop (conf : ConcatConf) (rt : ConcatRt) :
    List (Nat × MemDesc) → Nat → List KArg
  | [], _ => []
  | (idx, s) :: rest, valid =>
    if s.pdimsConcat = 0 then pushLoop conf rt rest valid
    else pushChunk conf rt idx valid ++ pushLoop conf rt rest (valid + 1)

/-- The cutoff accumulation of `push_idx_kernel_args` (lines 379, 397). -/
def cutoffLoop (rt : ConcatRt) : List (Nat × MemDesc) → Nat → Bool → Bool
  | [], _, c => c
  | (_, s) :: rest, valid, c =>
    if s.pdimsConcat = 0 then cutoffLoop rt rest valid c
    else cutoffLoop rt rest (valid + 1)
      (c || decide (rt.offsets.getD valid 0 % rt.readOverlap ≠ 0))

/-- `must_compute_ext_idx` (lines 410–412). -/
def mustComputeExtIdx (_conf : ConcatConf) (rt : ConcatRt) (srcs : List MemDesc) : Bool :=
  decide (rt.readOverlap * rt.gws0Block > rt.innerAxis) ||
    cutoffLoop rt (enumFromN 0 srcs) 0 (decide (rt.dstConcatAxis % rt.readOverlap ≠ 0))

/-- The argument stream appended by `push_idx_kernel_args`
(lines 372–414). -/
def pushIdxKernelArgs (conf : ConcatConf) (rt : ConcatRt) (srcs : List MemDesc) : List KArg :=
  pushLoop conf rt (enumFromN 0 srcs) 0 ++
    [KArg.val rt.dstConcatAxis, KArg.val rt.dstPaddedConcatAxis,
     KArg.val rt.readOverlap, KArg.val rt.gws0Block, KArg.val rt.innerAxis,
     KArg.flag (mustComputeExtIdx conf rt srcs)]

/-- The per-input loop of `push_idx_kernel_args_internal_padding`
(lines 427–447). -/
def pushLoopIp (_conf : ConcatConf) (rt : ConcatRt) :
    List (Nat × MemDesc) → Nat → List KArg
  | [], _ => []
  | (idx, s) :: rest, valid =>
    if s.pdimsConcat = 0 then pushLoopIp _conf rt rest valid
    else
      ([KArg.buf idx,
        KArg.val (rt.offsets.getD valid 0),
        KArg.val (rt.paddedOffsets.getD valid 0)] ++
       (if valid = 0 then [KArg.val rt.srcConcatAxis0, KArg.val rt.paddedSrcConcatAxis0]
        else [KArg.val rt.srcConcatAxis1, KArg.val rt.paddedSrcConcatAxis1])) ++
      pushLoopIp _conf rt rest (valid + 1)

/-- The argument stream appended by `push_idx_kernel_args_internal_padding`
(lines 416–450). -/
def pushIdxKernelArgsIp (conf : ConcatConf) (rt : ConcatRt) (srcs : List MemDesc) : List KArg :=
  [KArg.val rt.dstConcatAxis, KArg.val rt.dstPaddedConcatAxis] ++
    pushLoopIp conf rt (enumFromN 0 srcs) 0 ++ [KArg.val rt.innerAxis]

/-- A recorded kernel submission: dispatch geometry, kernel variant, and
the flat argument list. -/
structure DispatchRec where
  gws : Nat × Nat × Nat
  lws : Nat × Nat × Nat
  ipKernel : Bool
  args : List KArg
deriving DecidableEq, Repr

/-- `execute_concat` (lines 452–489): with zero live inputs it returns
success immediately, building no argument list and submitting no kernel
(modelled as `none`); otherwise it submits one kernel whose argument list
starts with the destination buffer. -/
def executeConcat (p : Plan) (srcs : List MemDesc) : Option DispatchRec :=
  if p.conf.n = 0 then none
  else if p.conf.useInternalPaddingKernel then
    some { gws := p.rt.gws, lws := p.rt.lws, ipKernel := true
           args := KArg.dstBuf :: pushIdxKernelArgsIp p.conf p.rt srcs }
  else
    some { gws := p.rt.gws, lws := p.rt.lws, ipKernel := false
           args := KArg.dstBuf :: KArg.val p.rt.dstOffset0 ::
             KArg.val (p.rt.dstExternDimSize / p.conf.dataTypeSize) ::
             pushIdxKernelArgs p.conf p.rt srcs }

/-- A synthetic device profile: lane widths up to 32 all usable,
64 register bytes, 512 hardware threads. -/
def exDev : Device :=
  { maxSgSize := 32, mayiuse := fun _ => true, registerBytes := 64, hwThreads := 512 }

/-- A plain (unblocked) normalized source view with the given logical and
padded concat extents and byte size, for a 4-row outer axis and a trivial
inner axis. -/
def mkPlainSrc (d pdim sz : Nat) : MemDesc :=
  { dimsOuter := 4, dimsConcat := d, dimsInner := 1
    pdimsOuter := 4, pdimsConcat := pdim, pdimsInner := 1
    stridesOuter := pdim, stridesConcat := 1, offset0 := 0
    innerBlocks := [], sizeBytes := sz, formatBlocked := true }

/-- Scenario for the general strategy: destination `[4, 1000]` (f32) built
from sources of concat extents 600 and 400, no blocking, no padding. -/
def exG : Input :=
  { dst :=
      { dimsOuter := 4, dimsConcat := 1000, dimsInner := 1
        pdimsOuter := 4, pdimsConcat := 1000, pdimsInner := 1
        stridesOuter := 1000, stridesConcat := 1, offset0 := 0
        innerBlocks := [], sizeBytes := 16000, formatBlocked := true }
    srcs := [mkPlainSrc 600 600 9600, mkPlainSrc 400 400 6400]
    dev := exDev
    maxWriteSize := 8, maxReadSize := 8, dataTypeSize := 4
    probeBlock := fun _ _ maxElems => maxElems
    optimalLws := fun _ => (1, 1, 1) }

/-- A blocked normalized source view for the internal-padding scenario. -/
def mkBlockedSrc (d pdim sz : Nat) : MemDesc :=
  { dimsOuter := 400, dimsConcat := d, dimsInner := 16
    pdimsOuter := 400, pdimsConcat := pdim, pdimsInner := 16
    stridesOuter := pdim * 16, stridesConcat := 16, offset0 := 0
    innerBlocks := [(16, Ax.concat)], sizeBytes := sz, formatBlocked := true }

/-- Scenario for the internal-padding strategy: destination with a
16-element concat block, logical concat extent 24 padded to 32 (internal
padding), two live f32 sources; the second source's buffer exceeds the
signed 32-bit byte range while the destination does not. -/
def exIP : Input :=
  { dst :=
      { dimsOuter := 400, dimsConcat := 24, dimsInner := 16
        pdimsOuter := 400, pdimsConcat := 32, pdimsInner := 16
        stridesOuter := 512, stridesConcat := 16, offset0 := 0
        innerBlocks := [(16, Ax.concat)], sizeBytes := 819200, formatBlocked := true }
    srcs := [mkBlockedSrc 8 16 409600, mkBlockedSrc 16 16 3000000000]
    dev := exDev
    maxWriteSize := 64, maxReadSize := 64, dataTypeSize := 4
    probeBlock := fun _ _ maxElems => maxElems
    optimalLws := fun _ => (1, 1, 1) }

/-- A destination with internal padding and three non-empty sources. -/
def exC2 : Input :=
  { exIP with srcs := [mkBlockedSrc 8 16 1024, mkBlockedSrc 8 8 512, mkBlockedSrc 8 8 512] }

/-- A destination whose total byte size (12) is not divisible by the
byte-group size 8 even though 8 divides the maximum write granularity. -/
def exC3 : Input :=
  { dst :=
      { dimsOuter := 1, dimsConcat := 3, dimsInner := 1
        pdimsOuter := 1, pdimsConcat := 3, pdimsInner := 1
        stridesOuter := 3, stridesConcat := 1, offset0 := 0
        innerBlocks := [], sizeBytes := 12, formatBlocked := true }
    srcs := [mkPlainSrc 3 3 12]
    dev := { maxSgSize := 32, mayiuse := fun _ => true, registerBytes := 64, hwThreads := 1 }
    maxWriteSize := 8, maxReadSize := 8, dataTypeSize := 4
    probeBlock := fun _ _ maxElems => maxElems
    optimalLws := fun _ => (1, 1, 1) }

/-- A single-byte data type with a single-byte write granularity and a
destination padded to four times its logical concat extent. -/
def exC6 : Input :=
  { dst :=
      { dimsOuter := 1, dimsConcat := 2, dimsInner := 1
        pdimsOuter := 1, pdimsConcat := 8, pdimsInner := 1
        stridesOuter := 8, stridesConcat := 1, offset0 := 0
        innerBlocks := [], sizeBytes := 8, formatBlocked := true }
    srcs := [mkPlainSrc 2 8 8]
    dev := { maxSgSize := 32, mayiuse := fun _ => true, registerBytes := 64, hwThreads := 1 }
    maxWriteSize := 1, maxReadSize := 1, dataTypeSize := 1
    probeBlock := fun _ _ maxElems => maxElems
    optimalLws := fun _ => (1, 1, 1) }

/-- A destination whose first concat block length (12) divides no per-lane
element span, so no lane width qualifies for the internal-padding search. -/
def exC7 : Input :=
  { dst :=
      { dimsOuter := 4, dimsConcat := 20, dimsInner := 16
        pdimsOuter := 4, pdimsConcat := 24, pdimsInner := 16
        stridesOuter := 384, stridesConcat := 16, offset0 := 0
        innerBlocks := [(12, Ax.concat)], sizeBytes := 6144, formatBlocked := true }
    srcs := [mkBlockedSrc 8 12 1024, mkBlockedSrc 12 12 1024]
    dev := exDev
    maxWriteSize := 64, maxReadSize := 64, dataTypeSize := 4
    probeBlock := fun _ _ maxElems => maxElems
    optimalLws := fun _ => (1, 1, 1) }

/-- A stored plan with zero live inputs. -/
def exPlan0 : Plan :=
  { conf :=
      { n := 0, simd := 1, dataTypeSize := 1, readBlock := 1, writeBlock := 1
        blocks := [], useLargeIndex := false, useInternalPaddingKernel := false
        bytesPerWorkitem := 0 }
    rt :=
      { srcExternDimSizes := [], offsets := [], paddedOffsets := []
        dstExternDimSize := 0, dstPaddedConcatAxis := 0, dstConcatAxis := 0
        dstOffset0 := 0, innerAxis := 0, gws0Block := 0, readOverlap := 0
        gws := (0, 0, 0), lws := (0, 0, 0)
        srcConcatAxis0 := 0, srcConcatAxis1 := 0
        paddedSrcConcatAxis0 := 0, paddedSrcConcatAxis1 := 0 } }

theorem srcScan_eq_filter (dts b : Nat) (srcs : List MemDesc) :
    srcScan dts b srcs = (liveSrcs srcs).foldl (scanStep dts) (scanInit b) := by
  unfold srcScan liveSrcs
  generalize scanInit b = st
  induction srcs generalizing st with
  | nil => rfl
  | cons s rest ih =>
    by_cases h : s.pdimsConcat = 0
    · simp [List.filter_cons, h, ih]
    · simp [List.filter_cons, h, ih]

theorem scanFold_offset (dts : Nat) (l : List MemDesc) (st : ScanSt) :
    (l.foldl (scanStep dts) st).offset = st.offset + (l.map fun s => s.dimsConcat).sum := by
  induction l generalizing st with
  | nil => simp
  | cons s rest ih => simp [scanStep, ih, Nat.add_assoc]

theorem scanFold_paddedOffset (dts : Nat) (l : List MemDesc) (st : ScanSt) :
    (l.foldl (scanStep dts) st).paddedOffset
      = st.paddedOffset + (l.map fun s => s.pdimsConcat).sum := by
  induction l generalizing st with
  | nil => simp
  | cons s rest ih => simp [scanStep, ih, Nat.add_assoc]

theorem scanFold_nonempty (dts : Nat) (l : List MemDesc) (st : ScanSt) :
    (l.foldl (scanStep dts) st).nonempty = st.nonempty + l.length := by
  induction l generalizing st with
  | nil => simp
  | cons s rest ih => simp [scanStep, ih]; omega

theorem scanFold_maxBytes (dts : Nat) (l : List MemDesc) (st : ScanSt) :
    (l.foldl (scanStep dts) st).maxBytes
      = l.foldl (fun a s => max a s.sizeBytes) st.maxBytes := by
  induction l generalizing st with
  | nil => simp
  | cons s rest ih => simp [scanStep, ih]

theorem scanFold_externSizes (dts : Nat) (l : List MemDesc) (st : ScanSt) :
    (l.foldl (scanStep dts) st).externSizes
      = st.externSizes ++ l.map fun s => s.stridesOuter * dts := by
  induction l generalizing st with
  | nil => simp
  | cons s rest ih => simp [scanStep, ih]

theorem scanFold_offsets (dts : Nat) (l : List MemDesc) (st : ScanSt) :
    (l.foldl (scanStep dts) st).offsets
      = st.offsets ++ (List.range l.length).map fun k => st.offset + prefixDims l k := by
  induction l generalizing st with
  | nil => simp
  | cons s rest ih =>
    rw [List.foldl_cons, ih, List.length_cons, List.range_succ_eq_map]
    simp [scanStep, List.map_map, prefixDims, Function.comp_def, List.take_succ_cons,
      Nat.add_assoc]

theorem scanFold_paddedOffsets (dts : Nat) (l : List MemDesc) (st : ScanSt) :
    (l.foldl (scanStep dts) st).paddedOffsets
      = st.paddedOffsets ++ (List.range l.length).map fun k => st.paddedOffset + prefixPdims l k := by
  induction l generalizing st with
  | nil => simp
  | cons s rest ih =>
    rw [List.foldl_cons, ih, List.length_cons, List.range_succ_eq_map]
    simp [scanStep, List.map_map, prefixPdims, Function.comp_def, List.take_succ_cons,
      Nat.add_assoc]

theorem foldl_max_gt (l : List MemDesc) (a M : Nat) :
    l.foldl (fun a s => max a s.sizeBytes) a > M ↔ a > M ∨ ∃ s ∈ l, s.sizeBytes > M := by
  induction l generalizing a with
  | nil => simp
  | cons s rest ih =>
    simp only [List.foldl_cons, ih, lt_max_iff, List.mem_cons]
    constructor
    · rintro (⟨h | h⟩ | ⟨x, hx, hgt⟩)
      · exact Or.inl h
      · exact Or.inr ⟨s, Or.inl rfl, h⟩
      · exact Or.inr ⟨x, Or.inr hx, hgt⟩
    · rintro (h | ⟨x, hx | hx, hgt⟩)
      · exact Or.inl (Or.inl h)
      · exact Or.inl (Or.inr (hx ▸ hgt))
      · exact Or.inr ⟨x, hx, hgt⟩

theorem liveSum_eq (l : List MemDesc) (h : ∀ s ∈ l, s.dimsConcat ≤ s.pdimsConcat) :
    ((liveSrcs l).map fun s => s.dimsConcat).sum = (l.map fun s => s.dimsConcat).sum := by
  induction l with
  | nil => rfl
  | cons s rest ih =>
    have hs := h s (by simp)
    have ih := ih fun x hx => h x (by simp [hx])
    by_cases h0 : s.pdimsConcat = 0
    · have hd : s.dimsConcat = 0 := by omega
      simp [liveSrcs, List.filter_cons, h0, hd] at ih ⊢
      simpa [liveSrcs] using ih
    · simp [liveSrcs, List.filter_cons, h0] at ih ⊢
      simp [liveSrcs, ih]

theorem enumFromN_map_snd (n : Nat) (l : List α) :
    (enumFromN n l).map Prod.snd = l := by
  induction l generalizing n with
  | nil => rfl
  | cons a rest ih => simp [enumFromN, ih]

theorem mem_enumFromN (l : List α) (n : Nat) (q : Nat × α) (d : α)
    (h : q ∈ enumFromN n l) :
    ∃ k, q.1 = n + k ∧ k < l.length ∧ l.getD k d = q.2 := by
  induction l generalizing n with
  | nil => simp [enumFromN] at h
  | cons a rest ih =>
    simp only [enumFromN, List.mem_cons] at h
    rcases h with h | h
    · subst h
      exact ⟨0, by simp, by simp, rfl⟩
    · obtain ⟨k, hk, hlen, hget⟩ := ih (n + 1) h
      exact ⟨k + 1, by omega, by simpa using hlen, by simpa using hget⟩

theorem filter_enumFromN_snd (l : List α) (pb : α → Bool) (n : Nat) :
    (((enumFromN n l).filter fun q => pb q.2).map Prod.snd) = l.filter pb := by
  induction l generalizing n with
  | nil => rfl
  | cons a rest ih =>
    by_cases h : pb a
    · simp [enumFromN, List.filter_cons, h, ih]
    · simp [enumFromN, List.filter_cons, h, ih]

theorem catMap_congr (l : List α) (f g : α → List β)
    (h : ∀ x ∈ l, f x = g x) : catMap f l = catMap g l := by
  induction l with
  | nil => rfl
  | cons a rest ih =>
    simp only [catMap, h a (by simp), ih fun x hx => h x (by simp [hx])]

theorem getD_range_map (f : Nat → α) (n k : Nat) (d : α) (h : k < n) :
    ((List.range n).map f).getD k d = f k := by
  rw [List.getD_eq_getElem?_getD, List.getElem?_map, List.getElem?_range h]
  rfl

theorem getD_map (f : α → β) (l : List α) (k : Nat) (d : β) (d₀ : α)
    (h : k < l.length) :
    (l.map f).getD k d = f (l.getD k d₀) := by
  rw [List.getD_eq_getElem?_getD, List.getElem?_map,
    List.getD_eq_getElem?_getD, List.getElem?_eq_getElem h]
  simp

theorem pushLoop_eq_catMap (conf : ConcatConf) (rt : ConcatRt)
    (pairs : List (Nat × MemDesc)) (valid : Nat) :
    pushLoop conf rt pairs valid
      = catMap (fun q => pushChunk conf rt q.2.1 q.1)
          (enumFromN valid (pairs.filter fun q => decide (q.2.pdimsConcat ≠ 0))) := by
  induction pairs generalizing valid with
  | nil => rfl
  | cons q rest ih =>
    obtain ⟨idx, s⟩ := q
    by_cases h : s.pdimsConcat = 0
    · simp [pushLoop, h, List.filter_cons, ih]
    · simp [pushLoop, h, List.filter_cons, ih, enumFromN, catMap]

/-- The original input indices appearing as buffer arguments. -/
def bufIdxOf (args : List KArg) : List Nat :=
  args.filterMap fun a => match a with | KArg.buf i => some i | _ => none

/-- The original indices of the live inputs. -/
def liveIdxList (srcs : List MemDesc) : List Nat :=
  ((enumFromN 0 srcs).filter fun q => decide (q.2.pdimsConcat ≠ 0)).map Prod.fst

theorem bufIdxOf_append (a b : List KArg) :
    bufIdxOf (a ++ b) = bufIdxOf a ++ bufIdxOf b := by
  simp [bufIdxOf, List.filterMap_append]

theorem bufIdxOf_catMap_chunks (conf : ConcatConf) (rt : ConcatRt)
    (l : List (Nat × (Nat × MemDesc))) :
    bufIdxOf (catMap (fun q => pushChunk conf rt q.2.1 q.1) l) = l.map fun q => q.2.1 := by
  induction l with
  | nil => rfl
  | cons q rest ih =>
    rw [catMap, bufIdxOf_append, ih]
    rfl

theorem bufIdxOf_pushIdxKernelArgs (conf : ConcatConf) (rt : ConcatRt)
    (srcs : List MemDesc) :
    bufIdxOf (pushIdxKernelArgs conf rt srcs) = liveIdxList srcs := by
  rw [pushIdxKernelArgs, bufIdxOf_append, pushLoop_eq_catMap, bufIdxOf_catMap_chunks]
  have h2 : bufIdxOf [KArg.val rt.dstConcatAxis, KArg.val rt.dstPaddedConcatAxis,
      KArg.val rt.readOverlap, KArg.val rt.gws0Block, KArg.val rt.innerAxis,
      KArg.flag (mustComputeExtIdx conf rt srcs)] = [] := rfl
  rw [h2, List.append_nil, liveIdxList]
  generalize (enumFromN 0 srcs).filter (fun q => decide (q.2.pdimsConcat ≠ 0)) = l
  rw [show (fun q : Nat × (Nat × MemDesc)  => q.2.1) = Prod.fst ∘ Prod.snd from rfl,
    ← List.map_map, enumFromN_map_snd]

theorem probeBetter_trans (a b c : ProbeInfo)
    (hab : probeBetter a b = true) (hbc : probeBetter b c = true) :
    probeBetter a c = true := by
  simp only [probeBetter, Bool.or_eq_true, Bool.and_eq_true, decide_eq_true_eq,
    beq_iff_eq] at hab hbc ⊢
  omega

theorem probeBetter_asymm (a b : ProbeInfo)
    (hab : probeBetter a b = true) (hba : probeBetter b a = true) : False := by
  simp only [probeBetter, Bool.or_eq_true, Bool.and_eq_true, decide_eq_true_eq,
    beq_iff_eq] at hab hba
  omega

theorem probeBetter_push (x f r : ProbeInfo)
    (hx : probeBetter x r = true) (hf : probeBetter f r = false) :
    probeBetter x f = true := by
  simp only [probeBetter, Bool.or_eq_true, Bool.and_eq_true, decide_eq_true_eq,
    beq_iff_eq, Bool.or_eq_false_iff, Bool.and_eq_false_iff,
    decide_eq_false_iff_not, beq_eq_false_iff_ne] at hx hf ⊢
  omega

theorem selectBest_spec (first : ProbeInfo) (rest : List ProbeInfo) :
    selectBest first rest ∈ first :: rest ∧
      ∀ x ∈ first :: rest, probeBetter x (selectBest first rest) = false := by
  unfold selectBest
  induction rest generalizing first with
  | nil =>
    refine ⟨by simp, ?_⟩
    intro x hx
    simp only [List.mem_singleton] at hx
    subst hx
    simp only [List.foldl_nil]
    cases h : probeBetter x x with
    | false => rfl
    | true => exact (probeBetter_asymm x x h h).elim
  | cons y rest ih =>
    simp only [List.foldl_cons]
    by_cases hy : probeBetter y first = true
    · rw [if_pos hy]
      obtain ⟨hmem, hmin⟩ := ih y
      refine ⟨?_, ?_⟩
      · rcases List.mem_cons.1 hmem with h | h
        · simp [h]
        · simp [List.mem_cons, h]
      · intro x hx
        rcases List.mem_cons.1 hx with h | hx2
        · subst h
          cases hb : probeBetter x (rest.foldl (fun best z => if probeBetter z best then z else best) y) with
          | false => rfl
          | true =>
            have hyr := hmin y (by simp)
            have hxy := probeBetter_push x y _ hb hyr
            exact (probeBetter_asymm x y hxy hy).elim
        · exact hmin x hx2
    · rw [if_neg hy]
      obtain ⟨hmem, hmin⟩ := ih first
      refine ⟨?_, ?_⟩
      · rcases List.mem_cons.1 hmem with h | h
        · simp [h]
        · simp [List.mem_cons, h]
      · intro x hx
        rcases List.mem_cons.1 hx with h | hx2
        · subst h
          exact hmin x (by simp)
        · rcases List.mem_cons.1 hx2 with h | h
          · subst h
            cases hb : probeBetter x (rest.foldl (fun best z => if probeBetter z best then z else best) first) with
            | false => rfl
            | true =>
              have hfr := hmin first (by simp)
              have hxf := probeBetter_push x first _ hb hfr
              rw [Bool.not_eq_true] at hy
              exact absurd hxf (by simp [hy])
          · exact hmin x (by simp [List.mem_cons, h])

theorem mem_foldr_append (l : List α) (f : α → List β) (i : β) :
    i ∈ l.foldr (fun s acc => f s ++ acc) [] ↔ ∃ s ∈ l, i ∈ f s := by
  induction l with
  | nil => simp
  | cons a rest ih => simp [ih]

theorem mem_candidates (inp : Input) (i : ProbeInfo) :
    i ∈ candidates inp
      ↔ ∃ s ∈ simdList, ∃ b ∈ bytesList, candOk inp s b = true ∧ i = mkProbe inp s b := by
  unfold candidates
  rw [mem_foldr_append]
  refine exists_congr fun s => ?_
  refine and_congr_right fun _ => ?_
  by_cases h : simdOk inp s = true
  · rw [if_pos h, List.mem_filterMap]
    refine exists_congr fun b => ?_
    refine and_congr_right fun _ => ?_
    by_cases hb : bytesOk inp s b = true
    · simp [hb, candOk, h, eq_comm]
    · simp [hb, candOk, h]
  · rw [if_neg h]
    simp [candOk, h]

/-- Whether some admitted candidate has the given lane width and byte-group
size. -/
def admittedPair (inp : Input) (s b : Nat) : Bool :=
  (candidates inp).any fun i => i.simd == s && i.typeSize == b

theorem admittedPair_iff (inp : Input) (s b : Nat) :
    admittedPair inp s b = true ↔ (s ∈ simdList ∧ b ∈ bytesList ∧ candOk inp s b = true) := by
  unfold admittedPair
  rw [List.any_eq_true]
  constructor
  · rintro ⟨i, hi, hm⟩
    simp only [Bool.and_eq_true, beq_iff_eq] at hm
    obtain ⟨s2, hs2, b2, hb2, hok, hi2⟩ := (mem_candidates inp i).1 hi
    have h1 : i.simd = s2 := by rw [hi2]; rfl
    have h2 : i.typeSize = b2 := by rw [hi2]; rfl
    refine ⟨?_, ?_, ?_⟩
    · rw [← hm.1, h1]; exact hs2
    · rw [← hm.2, h2]; exact hb2
    · rw [← hm.1, ← hm.2, h1, h2]; exact hok
  · rintro ⟨hs, hb, hok⟩
    refine ⟨mkProbe inp s b, (mem_candidates inp _).2 ⟨s, hs, b, hb, hok, rfl⟩, ?_⟩
    simp [mkProbe]

theorem generalStrategy_ok {inp : Input} {p : Plan} (h : generalStrategy inp = .ok p) :
    ∃ first rest, candidates inp = first :: rest ∧ first.block ≠ 0 ∧
      selectedInfo inp = some (selectBest first rest) ∧
      p = generalPlan inp (selectBest first rest) ∧
      ¬(p.conf.writeBlock * p.conf.dataTypeSize = 1 ∧
          4 * inp.dst.dimsConcat ≤ inp.dst.pdimsConcat) := by
  unfold generalStrategy at h
  rcases hc : candidates inp with _ | ⟨first, rest⟩
  · rw [hc] at h; simp at h
  · rw [hc] at h
    dsimp only at h
    by_cases hb : first.block = 0
    · rw [if_pos hb] at h; simp at h
    · rw [if_neg hb] at h
      by_cases hcond : (generalPlan inp (selectBest first rest)).conf.writeBlock *
            (generalPlan inp (selectBest first rest)).conf.dataTypeSize = 1 ∧
          4 * inp.dst.dimsConcat ≤ inp.dst.pdimsConcat
      · rw [if_pos hcond] at h; simp at h
      · rw [if_neg hcond] at h
        injection h with h
        exact ⟨first, rest, rfl, hb, by simp [selectedInfo, hc], h.symm, h ▸ hcond⟩

theorem ipStrategy_ok {inp : Input} {p : Plan} (h : ipStrategy inp = .ok p) :
    ipMaxSimd inp ≠ 1 ∧ p = ipPlan inp (ipMaxSimd inp) ∧
      (srcScan inp.dataTypeSize inp.dst.sizeBytes inp.srcs).nonempty = 2 ∧
      ipBlocks inp ≠ [] ∧
      (ipBlock0 inp = 4 ∨ ipBlock0 inp = 8 ∨ ipBlock0 inp = 16 ∨ ipBlock0 inp = 32) ∧
      inp.dst.sizeBytes > 500000 := by
  simp only [ipStrategy] at h
  split at h
  · simp at h
  · rename_i h1
    split at h
    · split at h
      · rename_i h2
        injection h with h
        exact ⟨h1, h.symm, h2.1, h2.2.2.2.1.1, h2.2.2.2.1.2, h2.2.2.2.2⟩
      · simp at h
    · split at h
      · rename_i h2
        injection h with h
        exact ⟨h1, h.symm, h2.1, h2.2.2.2.1.1, h2.2.2.2.1.2, h2.2.2.2.2⟩
      · simp at h

theorem srcScan_nonempty (dts b : Nat) (srcs : List MemDesc) :
    (srcScan dts b srcs).nonempty = (liveSrcs srcs).length := by
  rw [srcScan_eq_filter, scanFold_nonempty]
  simp [scanInit]

theorem srcScan_offset (dts b : Nat) (srcs : List MemDesc) :
    (srcScan dts b srcs).offset = ((liveSrcs srcs).map fun s => s.dimsConcat).sum := by
  rw [srcScan_eq_filter, scanFold_offset]
  simp [scanInit]

theorem srcScan_paddedOffset (dts b : Nat) (srcs : List MemDesc) :
    (srcScan dts b srcs).paddedOffset = ((liveSrcs srcs).map fun s => s.pdimsConcat).sum := by
  rw [srcScan_eq_filter, scanFold_paddedOffset]
  simp [scanInit]

theorem srcScan_offsets (dts b : Nat) (srcs : List MemDesc) :
    (srcScan dts b srcs).offsets
      = (List.range (liveSrcs srcs).length).map (prefixDims (liveSrcs srcs)) := by
  rw [srcScan_eq_filter, scanFold_offsets]
  simp [scanInit]

theorem srcScan_paddedOffsets (dts b : Nat) (srcs : List MemDesc) :
    (srcScan dts b srcs).paddedOffsets
      = (List.range (liveSrcs srcs).length).map (prefixPdims (liveSrcs srcs)) := by
  rw [srcScan_eq_filter, scanFold_paddedOffsets]
  simp [scanInit]

theorem srcScan_externSizes (dts b : Nat) (srcs : List MemDesc) :
    (srcScan dts b srcs).externSizes = (liveSrcs srcs).map fun s => s.stridesOuter * dts := by
  rw [srcScan_eq_filter, scanFold_externSizes]
  simp [scanInit]

theorem srcScan_maxBytes_gt (dts b : Nat) (srcs : List MemDesc) (M : Nat) :
    (srcScan dts b srcs).maxBytes > M ↔ b > M ∨ ∃ s ∈ liveSrcs srcs, s.sizeBytes > M := by
  rw [srcScan_eq_filter, scanFold_maxBytes, foldl_max_gt]
  simp [scanInit]

/-- The plan the general strategy produces on the `exG` scenario. -/
def exGPlan : Plan := (generalStrategy exG).toOption.getD exPlan0

/-- Claim C1: in a general-strategy planning run, empty sources (padded
concat extent zero) occupy no slot in the dense offset arrays and never
appear in the argument list; each live input's offset is the running sum of
the logical concat extents of the preceding live inputs; and the live
logical extents sum to the destination's logical concat extent (given the
concat relationship between destination and sources supplied by the
descriptor framework, with padded extents bounding logical extents). -/
theorem concat_offsets_dense_and_sum (inp : Input) (p : Plan)
    (hok : generalStrategy inp = .ok p)
    (hle : ∀ s ∈ inp.srcs, s.dimsConcat ≤ s.pdimsConcat)
    (hdst : inp.dst.dimsConcat = (inp.srcs.map fun s => s.dimsConcat).sum) :
    p.conf.n = (liveSrcs inp.srcs).length ∧
    p.rt.offsets = (List.range (liveSrcs inp.srcs).length).map (prefixDims (liveSrcs inp.srcs)) ∧
    p.rt.paddedOffsets
      = (List.range (liveSrcs inp.srcs).length).map (prefixPdims (liveSrcs inp.srcs)) ∧
    bufIdxOf (pushIdxKernelArgs p.conf p.rt inp.srcs) = liveIdxList inp.srcs ∧
    ((liveSrcs inp.srcs).map fun s => s.dimsConcat).sum = inp.dst.dimsConcat := by
  obtain ⟨first, rest, hc, hb, hsel, hp, hrej⟩ := generalStrategy_ok hok
  subst hp
  refine ⟨?_, ?_, ?_, ?_, ?_⟩
  · simp [generalPlan, srcScan_nonempty]
  · simp [generalPlan, srcScan_offsets]
  · simp [generalPlan, srcScan_paddedOffsets]
  · exact bufIdxOf_pushIdxKernelArgs _ _ _
  · rw [liveSum_eq _ hle, hdst]

/-- Witness for C1 at the concrete `exG` scenario. -/
theorem concat_offsets_dense_and_sum_witness :
    exGPlan.conf.n = (liveSrcs exG.srcs).length ∧
    exGPlan.rt.offsets
      = (List.range (liveSrcs exG.srcs).length).map (prefixDims (liveSrcs exG.srcs)) ∧
    exGPlan.rt.paddedOffsets
      = (List.range (liveSrcs exG.srcs).length).map (prefixPdims (liveSrcs exG.srcs)) ∧
    bufIdxOf (pushIdxKernelArgs exGPlan.conf exGPlan.rt exG.srcs) = liveIdxList exG.srcs ∧
    ((liveSrcs exG.srcs).map fun s => s.dimsConcat).sum = exG.dst.dimsConcat :=
  concat_offsets_dense_and_sum exG exGPlan (by rfl) (by decide) (by decide)

/-- Claim C10: for every stored plan with zero live inputs, the execution
entry point returns success immediately: no argument list is built and no
kernel is dispatched. -/
theorem execute_zero_inputs_noop (p : Plan) (srcs : List MemDesc)
    (h : p.conf.n = 0) : executeConcat p srcs = none := by
  simp [executeConcat, h]

/-- Witness for C10 at a concrete zero-input plan. -/
theorem execute_zero_inputs_noop_witness : executeConcat exPlan0 [] = none :=
  execute_zero_inputs_noop exPlan0 [] rfl

/-- Claim C4: every general-strategy plan has
`gws0_block = inner_axis * read_block / gcd(inner_axis, read_block)`,
`read_overlap = gws0_block / inner_axis`, and global dispatch sizes
`(gws0_block * simd / read_block, outer_extent / read_overlap,
sum of live padded concat extents)`; the first dimension is computed with
the greatest common divisor (the product identity of the last conjunct
certifies the exact gcd relationship). -/
theorem general_dispatch_geometry (inp : Input) (p : Plan)
    (hok : generalStrategy inp = .ok p) :
    p.rt.gws0Block
        = inp.dst.pdimsInner * inp.dataTypeSize / p.conf.dataTypeSize * p.conf.readBlock
          / Nat.gcd (inp.dst.pdimsInner * inp.dataTypeSize / p.conf.dataTypeSize)
              p.conf.readBlock ∧
    p.rt.readOverlap
        = p.rt.gws0Block / (inp.dst.pdimsInner * inp.dataTypeSize / p.conf.dataTypeSize) ∧
    p.rt.gws = (p.rt.gws0Block * p.conf.simd / p.conf.readBlock,
                inp.dst.dimsOuter / p.rt.readOverlap,
                ((liveSrcs inp.srcs).map fun s => s.pdimsConcat).sum) ∧
    p.rt.gws0Block * Nat.gcd (inp.dst.pdimsInner * inp.dataTypeSize / p.conf.dataTypeSize)
          p.conf.readBlock
        = inp.dst.pdimsInner * inp.dataTypeSize / p.conf.dataTypeSize * p.conf.readBlock := by
  obtain ⟨first, rest, hc, hb, hsel, hp, hrej⟩ := generalStrategy_ok hok
  subst hp
  refine ⟨?_, ?_, ?_, ?_⟩
  · simp [generalPlan]
  · simp [generalPlan]
  · simp [generalPlan, srcScan_paddedOffset]
  · simp only [generalPlan]
    exact Nat.div_mul_cancel ((Nat.gcd_dvd_left _ _).mul_right _)

/-- Witness for C4 at the concrete `exG` scenario. -/
theorem general_dispatch_geometry_witness :
    exGPlan.rt.gws0Block
        = exG.dst.pdimsInner * exG.dataTypeSize / exGPlan.conf.dataTypeSize * exGPlan.conf.readBlock
          / Nat.gcd (exG.dst.pdimsInner * exG.dataTypeSize / exGPlan.conf.dataTypeSize)
              exGPlan.conf.readBlock ∧
    exGPlan.rt.readOverlap
        = exGPlan.rt.gws0Block / (exG.dst.pdimsInner * exG.dataTypeSize / exGPlan.conf.dataTypeSize) ∧
    exGPlan.rt.gws = (exGPlan.rt.gws0Block * exGPlan.conf.simd / exGPlan.conf.readBlock,
                exG.dst.dimsOuter / exGPlan.rt.readOverlap,
                ((liveSrcs exG.srcs).map fun s => s.pdimsConcat).sum) ∧
    exGPlan.rt.gws0Block * Nat.gcd (exG.dst.pdimsInner * exG.dataTypeSize / exGPlan.conf.dataTypeSize)
          exGPlan.conf.readBlock
        = exG.dst.pdimsInner * exG.dataTypeSize / exGPlan.conf.dataTypeSize * exGPlan.conf.readBlock :=
  general_dispatch_geometry exG exGPlan (by rfl)

/-- Counterexample to C5 as stated: the internal-padding strategy produces
a plan on `exIP` with `use_large_index = false`, although a live source
buffer (3 000 000 000 bytes) exceeds `2^31 - 1`. -/
theorem ip_large_index_dst_only_counterexample :
    (ipStrategy exIP).toOption.map (fun p => p.conf.useLargeIndex) = some false ∧
    ((liveSrcs exIP.srcs).map fun s => s.sizeBytes).getD 1 0 > 2 ^ 31 - 1 := by
  constructor
  · rfl
  · decide

/-- Claim C5 (amended): for general-strategy plans `use_large_index` is
true iff some participating tensor (destination or live source) exceeds
`2^31 - 1` bytes; for internal-padding-strategy plans it is true iff the
destination alone exceeds `2^31 - 1` bytes (source sizes are not
consulted). -/
theorem use_large_index_characterization (inp : Input) (p : Plan) :
    (generalStrategy inp = .ok p →
      (p.conf.useLargeIndex = true ↔
        inp.dst.sizeBytes > 2 ^ 31 - 1 ∨ ∃ s ∈ liveSrcs inp.srcs, s.sizeBytes > 2 ^ 31 - 1)) ∧
    (ipStrategy inp = .ok p →
      (p.conf.useLargeIndex = true ↔ inp.dst.sizeBytes > 2 ^ 31 - 1)) := by
  have hM : (2 : Nat) ^ 31 - 1 = 2147483647 := by norm_num
  constructor
  · intro hok
    obtain ⟨first, rest, hc, hb, hsel, hp, hrej⟩ := generalStrategy_ok hok
    subst hp
    rw [hM]
    simp only [generalPlan, decide_eq_true_eq]
    exact srcScan_maxBytes_gt _ _ _ _
  · intro hok
    obtain ⟨h1, hp, _⟩ := ipStrategy_ok hok
    subst hp
    rw [hM]
    simp [ipPlan]

/-- Witness for amended C5, general side, at the concrete `exG` scenario:
no participating tensor exceeds the 32-bit range, so the flag is false. -/
theorem use_large_index_characterization_witness :
    exGPlan.conf.useLargeIndex = false := by
  have h := (use_large_index_characterization exG exGPlan).1 (by rfl)
  have hr : ¬(exG.dst.sizeBytes > 2 ^ 31 - 1 ∨
      ∃ s ∈ liveSrcs exG.srcs, s.sizeBytes > 2 ^ 31 - 1) := by decide
  exact Bool.eq_false_iff.2 fun hb => hr (h.1 hb)

/-- Claim C6: the general strategy returns the unimplemented status, never
a plan, whenever the selected candidate's write granularity is a single
byte and the destination's padded concat extent is at least four times its
logical concat extent. -/
theorem single_byte_padding_reject (inp : Input) (i : ProbeInfo)
    (hsel : selectedInfo inp = some i)
    (hgran : min i.block (inp.maxWriteSize / i.typeSize) * i.typeSize = 1)
    (hpad : 4 * inp.dst.dimsConcat ≤ inp.dst.pdimsConcat) :
    generalStrategy inp = .error () := by
  unfold generalStrategy
  rcases hc : candidates inp with _ | ⟨first, rest⟩
  · rfl
  · dsimp only
    by_cases hb : first.block = 0
    · rw [if_pos hb]
    · rw [if_neg hb]
      have hi : i = selectBest first rest := by
        simp only [selectedInfo, hc, Option.some.injEq] at hsel
        exact hsel.symm
      subst hi
      rw [if_pos ⟨by simpa [generalPlan] using hgran, hpad⟩]

/-- Witness for C6 at the concrete `exC6` scenario. -/
theorem single_byte_padding_reject_witness : generalStrategy exC6 = .error () :=
  single_byte_padding_reject exC6
    { simd := 32, typeSize := 1, maxElems := 256, block := 256 }
    (by rfl) (by decide) (by decide)

/-- The plan the internal-padding strategy produces on the `exIP`
scenario. -/
def exIPPlan : Plan := (ipStrategy exIP).toOption.getD exPlan0

/-- Counterexample to C2 as stated: on `exC2` the destination reports
internal padding and the internal-padding strategy is attempted although
three non-empty sources exist, so attempting is not equivalent to
`has_internal_padding() ∧ exactly two non-empty sources`. -/
theorem ip_attempted_three_inputs_counterexample :
    ipAttempted exC2 = true ∧ (liveSrcs exC2.srcs).length = 3 := ⟨rfl, rfl⟩

/-- Claim C2 (amended): the internal-padding strategy is attempted exactly
when the format checks pass and the destination reports internal padding —
independently of the live-input count; it can only succeed with exactly
two live inputs; whenever attempted and failing, `init_conf_common`
deterministically falls back to the general strategy (and on success
returns the internal-padding plan); without the guard only the general
strategy runs, and failed format checks yield the unimplemented status. -/
theorem ip_attempt_guard_and_fallback (inp : Input) :
    (∀ p, ipStrategy inp = .ok p → (liveSrcs inp.srcs).length = 2) ∧
    (ipAttempted inp = true → initConfCommon inp =
      (match ipStrategy inp with | .ok p => .ok p | .error _ => generalStrategy inp)) ∧
    (formatChecksPass inp = true → ipAttempted inp = false →
      initConfCommon inp = generalStrategy inp) ∧
    (formatChecksPass inp = false → initConfCommon inp = .error ()) := by
  refine ⟨?_, ?_, ?_, ?_⟩
  · intro p hok
    obtain ⟨_, _, h2, _⟩ := ipStrategy_ok hok
    rw [srcScan_nonempty] at h2
    exact h2
  · intro hatt
    unfold ipAttempted at hatt
    rw [Bool.and_eq_true] at hatt
    unfold initConfCommon
    rw [if_pos hatt.1, if_pos hatt.2]
  · intro h1 hatt
    unfold ipAttempted at hatt
    rw [h1, Bool.true_and] at hatt
    unfold initConfCommon
    rw [if_pos h1, if_neg (by simp [hatt])]
  · intro h1
    unfold initConfCommon
    rw [if_neg (by simp [h1])]

/-- Witness for amended C2: at `exC2` the guard holds and the dispatcher
reduces to internal-padding-then-fallback; at `exIP` a successful
internal-padding run has exactly two live inputs. -/
theorem ip_attempt_guard_and_fallback_witness :
    initConfCommon exC2 =
      (match ipStrategy exC2 with | .ok p => .ok p | .error _ => generalStrategy exC2) ∧
    (liveSrcs exIP.srcs).length = 2 :=
  ⟨(ip_attempt_guard_and_fallback exC2).2.1 rfl,
   (ip_attempt_guard_and_fallback exIP).1 exIPPlan (by rfl)⟩

/-- Counterexample to C3 as stated: on `exC3` the pair `(32, 8)` is
admitted although the byte-group size 8 does not evenly divide the
destination's total byte size 12, refuting the claimed even-division
admission condition. -/
theorem candidate_admission_divisibility_counterexample :
    admittedPair exC3 32 8 = true ∧ exC3.dst.sizeBytes % 8 ≠ 0 := by
  constructor
  · rfl
  · decide

/-- Claim C3 (amended): a `(lane width, byte group)` pair is admitted iff
the lane width is enumerated and device-usable, the byte group is
enumerated, divides the maximum single write granularity, and the aligned
block length (computed from the truncated element count
`dst_bytes / bytes`) is at least the lane width; no even-division
requirement on the destination byte size is enforced.  The selected
candidate is admitted and minimal in the ranking (largest aligned block,
then larger lane width, then smaller byte size). -/
theorem candidate_admission_and_selection (inp : Input) :
    (∀ s b, admittedPair inp s b = true ↔
      (s ∈ simdList ∧ b ∈ bytesList ∧ simdOk inp s = true ∧
        inp.maxWriteSize % b = 0 ∧ s ≤ (mkProbe inp s b).maxElems)) ∧
    (∀ i, selectedInfo inp = some i →
      i ∈ candidates inp ∧ ∀ x ∈ candidates inp, probeBetter x i = false) := by
  constructor
  · intro s b
    rw [admittedPair_iff]
    unfold candOk bytesOk
    simp [and_assoc]
  · intro i hi
    unfold selectedInfo at hi
    rcases hc : candidates inp with _ | ⟨first, rest⟩
    · rw [hc] at hi; simp at hi
    · rw [hc] at hi
      injection hi with hi
      subst hi
      obtain ⟨hmem, hmin⟩ := selectBest_spec first rest
      exact ⟨hc ▸ hmem, fun x hx => hmin x (hc ▸ hx)⟩

/-- Witness for amended C3 at the concrete `exG` scenario: the selected
candidate is `(32, 1)` with aligned block 1024, admitted and unbeaten, and
the admission equivalence instantiated at `(32, 8)`. -/
theorem candidate_admission_and_selection_witness :
    (mkProbe exG 32 1 ∈ candidates exG ∧
      (candidates exG).all (fun x => !probeBetter x (mkProbe exG 32 1)) = true) ∧
    (admittedPair exG 32 8 = true ↔
      (32 ∈ simdList ∧ 8 ∈ bytesList ∧ simdOk exG 32 = true ∧
        exG.maxWriteSize % 8 = 0 ∧ 32 ≤ (mkProbe exG 32 8).maxElems)) := by
  refine ⟨?_, (candidate_admission_and_selection exG).1 32 8⟩
  obtain ⟨hmem, hmin⟩ := (candidate_admission_and_selection exG).2 (mkProbe exG 32 1) (by rfl)
  refine ⟨hmem, List.all_eq_true.2 fun x hx => ?_⟩
  rw [hmin x hx]
  rfl

theorem find?_simdList_largest (pr : Nat → Bool) (m : Nat)
    (hfind : simdList.find? pr = some m) :
    ∀ s ∈ simdList, m < s → pr s = false := by
  intro s hs hlt
  simp only [simdList, List.mem_cons, List.not_mem_nil, or_false] at hs
  cases h32 : pr 32 <;> cases h16 : pr 16 <;> cases h8 : pr 8 <;> cases h1 : pr 1 <;>
    simp only [simdList, List.find?, h32, h16, h8, h1, Option.some.injEq] at hfind <;>
    rcases hs with h | h | h | h <;> subst h <;>
    first
      | assumption
      | (subst hfind; omega)

/-- Claim C7: the internal-padding strategy selects the largest supported
lane width whose per-lane element span is an exact multiple of the
destination's first concat block length, with the span and the lane width
both at least that block length; when no supported lane width qualifies it
returns the unimplemented status so the caller falls back to the general
strategy. -/
theorem ip_lane_width_selection (inp : Input) :
    (∀ p, ipStrategy inp = .ok p →
      (ipSupported inp p.conf.simd && ipQualify inp p.conf.simd) = true ∧
      ∀ s ∈ simdList, p.conf.simd < s → (ipSupported inp s && ipQualify inp s) = false) ∧
    ((∀ s ∈ simdList, (ipSupported inp s && ipQualify inp s) = false) →
      ipStrategy inp = .error ()) := by
  constructor
  · intro p hok
    obtain ⟨h1, hp, _⟩ := ipStrategy_ok hok
    have hsimd : p.conf.simd = ipMaxSimd inp := by rw [hp]; rfl
    rw [hsimd]
    rcases hfind : simdList.find? (fun s => ipSupported inp s && ipQualify inp s)
      with _ | m
    · exact absurd (by unfold ipMaxSimd; rw [hfind]; rfl) h1
    · have hm : ipMaxSimd inp = m := by unfold ipMaxSimd; rw [hfind]; rfl
      rw [hm]
      refine ⟨?_, find?_simdList_largest _ m hfind⟩
      have h := List.find?_some hfind
      simpa using h
  · intro hall
    have hnone : simdList.find? (fun s => ipSupported inp s && ipQualify inp s) = none :=
      List.find?_eq_none.2 fun x hx => by simp [hall x hx]
    have h1 : ipMaxSimd inp = 1 := by unfold ipMaxSimd; rw [hnone]; rfl
    simp only [ipStrategy]
    rw [if_pos h1]

/-- Witness for C7: on `exIP` the successful plan's lane width is
supported and qualifying; on `exC7` no lane width qualifies and the
strategy fails. -/
theorem ip_lane_width_selection_witness :
    (ipSupported exIP exIPPlan.conf.simd && ipQualify exIP exIPPlan.conf.simd) = true ∧
    ipStrategy exC7 = .error () :=
  ⟨((ip_lane_width_selection exIP).1 exIPPlan (by rfl)).1,
   (ip_lane_width_selection exC7).2 (by decide)⟩

theorem filterMap_congr_fun (l : List α) (f g : α → Option β)
    (h : ∀ x ∈ l, f x = g x) : l.filterMap f = l.filterMap g := by
  induction l with
  | nil => rfl
  | cons a rest ih =>
    rw [List.filterMap_cons, List.filterMap_cons, h a (by simp),
      ih fun x hx => h x (by simp [hx])]

/-- The rescaled block lengths, innermost first: with `first` set the head
(innermost) length is converted from `dts`-byte to `ts`-byte element
units, the remaining lengths are taken verbatim. -/
def scaledLens (dts ts : Nat) : List (Nat × Ax) → Bool → List Nat
  | [], _ => []
  | b :: rest, first => (if first then b.1 * dts / ts else b.1) :: scaledLens dts ts rest false

/-- Closed form of the concat-axis block decomposition: position `i` of
the innermost-first block list contributes `(lens_i, ∏ j < i, lens_j)`
exactly when its axis index is the concat axis. -/
def specBlockPairs (bs : List (Nat × Ax)) (lens : List Nat) : List (Nat × Nat) :=
  (List.range bs.length).filterMap fun i =>
    if (bs.getD i (0, Ax.outer)).2 = Ax.concat then
      some (lens.getD i 0, (lens.take i).prod)
    else none

theorem blocksWalk_eq_spec (dts ts : Nat) (bs : List (Nat × Ax)) :
    ∀ (first : Bool) (stride : Nat),
    blocksWalk dts ts bs first stride
      = (specBlockPairs bs (scaledLens dts ts bs first)).map fun q => (q.1, stride * q.2) := by
  induction bs with
  | nil => intro first stride; rfl
  | cons hd rest ih =>
    intro first stride
    obtain ⟨blk, ax⟩ := hd
    have hspec : specBlockPairs ((blk, ax) :: rest) (scaledLens dts ts ((blk, ax) :: rest) first)
        = (if ax = Ax.concat then
            [((if first then blk * dts / ts else blk), 1)] else []) ++
          (specBlockPairs rest (scaledLens dts ts rest false)).map
            (fun q => (q.1, (if first then blk * dts / ts else blk) * q.2)) := by
      unfold specBlockPairs
      rw [List.length_cons, List.range_succ_eq_map, List.filterMap_cons, List.filterMap_map,
        List.map_filterMap]
      have hfun : ∀ i ∈ List.range rest.length,
          ((fun i => if (((blk, ax) :: rest).getD i (0, Ax.outer)).2 = Ax.concat then
              some ((scaledLens dts ts ((blk, ax) :: rest) first).getD i 0,
                ((scaledLens dts ts ((blk, ax) :: rest) first).take i).prod)
            else none) ∘ Nat.succ) i
          = (fun i => Option.map (fun q => (q.1, (if first then blk * dts / ts else blk) * q.2))
              (if (rest.getD i (0, Ax.outer)).2 = Ax.concat then
                some ((scaledLens dts ts rest false).getD i 0,
                  ((scaledLens dts ts rest false).take i).prod)
              else none)) i := by
        intro i _
        simp only [Function.comp_apply, scaledLens, List.getD_cons_succ, List.take_succ_cons,
          List.prod_cons]
        by_cases hax : (rest.getD i (0, Ax.outer)).2 = Ax.concat
        · rw [if_pos hax, if_pos hax]
          rfl
        · rw [if_neg hax, if_neg hax]
          rfl
      rw [filterMap_congr_fun _ _ _ hfun]
      by_cases hax : ax = Ax.concat
      · simp [scaledLens, hax]
      · simp [scaledLens, hax]
    rw [hspec]
    simp only [blocksWalk, List.map_append, List.map_map, ih false (stride *
      (if first then blk * dts / ts else blk))]
    by_cases hax : ax = Ax.concat
    · rw [if_pos hax, if_pos hax]
      simp [Function.comp_def, Nat.mul_assoc]
    · rw [if_neg hax, if_neg hax]
      simp [Function.comp_def, Nat.mul_assoc]

/-- Claim C9: when a plan's destination block decomposition is built,
walking the inner blocks innermost to outermost, every block on the concat
axis contributes its `(length, stride)` pair, with the stride the product
of the lengths of the blocks inside it and the innermost length rescaled
to the chosen element size (general strategy; the internal-padding
strategy keeps the data-type element size, so its lengths are unscaled). -/
theorem dst_concat_block_decomposition (inp : Input) (p : Plan) :
    (generalStrategy inp = .ok p →
      p.conf.blocks = specBlockPairs inp.dst.innerBlocks.reverse
        (scaledLens inp.dataTypeSize p.conf.dataTypeSize inp.dst.innerBlocks.reverse true)) ∧
    (ipStrategy inp = .ok p →
      p.conf.blocks = specBlockPairs inp.dst.innerBlocks.reverse
        (scaledLens inp.dataTypeSize inp.dataTypeSize inp.dst.innerBlocks.reverse false)) := by
  constructor
  · intro hok
    obtain ⟨first, rest, hc, hb, hsel, hp, hrej⟩ := generalStrategy_ok hok
    subst hp
    have hw := blocksWalk_eq_spec inp.dataTypeSize (selectBest first rest).typeSize
      inp.dst.innerBlocks.reverse true 1
    simp only [generalPlan]
    rw [hw]
    simp
  · intro hok
    obtain ⟨h1, hp, _⟩ := ipStrategy_ok hok
    subst hp
    have hw := blocksWalk_eq_spec inp.dataTypeSize inp.dataTypeSize
      inp.dst.innerBlocks.reverse false 1
    simp only [ipPlan, ipBlocks]
    rw [hw]
    simp

/-- Witness for C9 at the concrete scenarios: the internal-padding plan on
`exIP` and the general plan on `exG`. -/
theorem dst_concat_block_decomposition_witness :
    exIPPlan.conf.blocks = specBlockPairs exIP.dst.innerBlocks.reverse
        (scaledLens exIP.dataTypeSize exIP.dataTypeSize exIP.dst.innerBlocks.reverse false) ∧
    exGPlan.conf.blocks = specBlockPairs exG.dst.innerBlocks.reverse
        (scaledLens exG.dataTypeSize exGPlan.conf.dataTypeSize exG.dst.innerBlocks.reverse true) :=
  ⟨(dst_concat_block_decomposition exIP exIPPlan).2 (by rfl),
   (dst_concat_block_decomposition exG exGPlan).1 (by rfl)⟩

/-- An all-zero layout descriptor, used only as a `getD` default. -/
def dummyMd : MemDesc :=
  { dimsOuter := 0, dimsConcat := 0, dimsInner := 0
    pdimsOuter := 0, pdimsConcat := 0, pdimsInner := 0
    stridesOuter := 0, stridesConcat := 0, offset0 := 0
    innerBlocks := [], sizeBytes := 0, formatBlocked := false }

/-- The spec-side argument stream of the general kernel: for the `k`-th
live input (original index `idx`): its buffer, its outer stride scaled to
the chosen element size, its logical offset (the sum of the logical concat
extents of the preceding live inputs), its padded offset, and the next
live input's logical offset — `dst_concat_axis` for the last; followed by
the shared destination fields. -/
def specArgsGeneral (inp : Input) (p : Plan) : List KArg :=
  catMap (fun q =>
      [KArg.buf q.2.1,
       KArg.val (q.2.2.stridesOuter * inp.dataTypeSize / p.conf.dataTypeSize),
       KArg.val (prefixDims (liveSrcs inp.srcs) q.1),
       KArg.val (prefixPdims (liveSrcs inp.srcs) q.1),
       KArg.val (if q.1 + 1 < p.conf.n then prefixDims (liveSrcs inp.srcs) (q.1 + 1)
         else p.rt.dstConcatAxis)])
    (enumFromN 0 ((enumFromN 0 inp.srcs).filter fun q => decide (q.2.pdimsConcat ≠ 0))) ++
  [KArg.val p.rt.dstConcatAxis, KArg.val p.rt.dstPaddedConcatAxis,
   KArg.val p.rt.readOverlap, KArg.val p.rt.gws0Block, KArg.val p.rt.innerAxis,
   KArg.flag (mustComputeExtIdx p.conf p.rt inp.srcs)]

/-- Claim C8: in the general strategy's argument builder, each live
input's arguments appear as buffer, scaled outer stride, logical offset,
padded offset, then the concat-axis boundary, which is the next live
input's logical offset, or the destination's usable concat extent
`dst_concat_axis` for the last live input. -/
theorem idx_kernel_args_layout (inp : Input) (p : Plan)
    (hok : generalStrategy inp = .ok p) :
    pushIdxKernelArgs p.conf p.rt inp.srcs = specArgsGeneral inp p := by
  obtain ⟨first, rest, hc, hb, hsel, hp, hrej⟩ := generalStrategy_ok hok
  have hoffs : p.rt.offsets = (List.range (liveSrcs inp.srcs).length).map
      (prefixDims (liveSrcs inp.srcs)) := by
    rw [hp]; simp [generalPlan, srcScan_offsets]
  have hpoffs : p.rt.paddedOffsets = (List.range (liveSrcs inp.srcs).length).map
      (prefixPdims (liveSrcs inp.srcs)) := by
    rw [hp]; simp [generalPlan, srcScan_paddedOffsets]
  have hext : p.rt.srcExternDimSizes
      = (liveSrcs inp.srcs).map fun s => s.stridesOuter * inp.dataTypeSize := by
    rw [hp]; simp [generalPlan, srcScan_externSizes]
  have hn : p.conf.n = (liveSrcs inp.srcs).length := by
    rw [hp]; simp [generalPlan, srcScan_nonempty]
  unfold pushIdxKernelArgs specArgsGeneral
  congr 1
  rw [pushLoop_eq_catMap]
  apply catMap_congr
  intro q hq
  obtain ⟨k, hk0, hklen, hget⟩ := mem_enumFromN _ 0 q (0, dummyMd) hq
  rw [Nat.zero_add] at hk0
  subst hk0
  have hsnd := filter_enumFromN_snd inp.srcs (fun s => decide (s.pdimsConcat ≠ 0)) 0
  have hlen : ((enumFromN 0 inp.srcs).filter fun r => decide (r.2.pdimsConcat ≠ 0)).length
      = (liveSrcs inp.srcs).length := by
    have := congrArg List.length hsnd
    simpa [liveSrcs] using this
  have hklt : q.1 < (liveSrcs inp.srcs).length := by rw [← hlen]; exact hklen
  have hdesc : (liveSrcs inp.srcs).getD q.1 dummyMd = q.2.2 := by
    have h1 : ((((enumFromN 0 inp.srcs).filter fun r =>
          decide (r.2.pdimsConcat ≠ 0)).map Prod.snd)).getD q.1 dummyMd
        = (((enumFromN 0 inp.srcs).filter fun r =>
          decide (r.2.pdimsConcat ≠ 0)).getD q.1 (0, dummyMd)).2 :=
      getD_map Prod.snd _ q.1 dummyMd (0, dummyMd) hklen
    rw [hsnd] at h1
    rw [show (inp.srcs.filter fun s => decide (s.pdimsConcat ≠ 0)) = liveSrcs inp.srcs from rfl]
      at h1
    rw [h1, hget]
  have e2 : p.rt.srcExternDimSizes.getD q.1 0 = q.2.2.stridesOuter * inp.dataTypeSize := by
    rw [hext, getD_map (fun s => s.stridesOuter * inp.dataTypeSize) _ q.1 0 dummyMd hklt, hdesc]
  have e3 : p.rt.offsets.getD q.1 0 = prefixDims (liveSrcs inp.srcs) q.1 := by
    rw [hoffs, getD_range_map _ _ _ _ hklt]
  have e4 : p.rt.paddedOffsets.getD q.1 0 = prefixPdims (liveSrcs inp.srcs) q.1 := by
    rw [hpoffs, getD_range_map _ _ _ _ hklt]
  have e5 : (if q.1 + 1 < p.conf.n then p.rt.offsets.getD (q.1 + 1) 0 else p.rt.dstConcatAxis)
      = (if q.1 + 1 < p.conf.n then prefixDims (liveSrcs inp.srcs) (q.1 + 1)
         else p.rt.dstConcatAxis) := by
    by_cases hlt : q.1 + 1 < p.conf.n
    · rw [if_pos hlt, if_pos hlt, hoffs, getD_range_map _ _ _ _ (by rw [hn] at hlt; exact hlt)]
    · rw [if_neg hlt, if_neg hlt]
  simp only [pushChunk, e2, e3, e4, e5]

/-- Witness for C8 at the concrete `exG` scenario. -/
theorem idx_kernel_args_layout_witness :
    pushIdxKernelArgs exGPlan.conf exGPlan.rt exG.srcs = specArgsGeneral exG exGPlan :=
  idx_kernel_args_layout exG exGPlan (by rfl)
